import Mathlib

/-!
# pwnedcheck: the k-anonymity range query and its response matching

A shallow embedding of `pwnedcheck.go`.

* A Go `string` is a sequence of bytes; it is embedded as a `List Char` in which
  every `Char` stands for one byte.  All the text the program inspects (the
  separators, the decimal digits, the hexadecimal digits) is ASCII.
* Go's `int` is embedded as `Int`; its width `intSize` (32 or 64, the constant
  `strconv.IntSize`) is a parameter of the functions that depend on it.
* Effects are made explicit: a function returns the list of the events it
  performed (HTTP request, log line, report on standard output) together with
  the way it ended (normal return, run-time panic, `os.Exit` through
  `log.Fatalln`).
-/

set_option autoImplicit false
set_option maxRecDepth 100000

namespace Pwnedcheck

/-- A Go string: a sequence of bytes, one `Char` per byte. -/
abbrev GoString := List Char

/-! ## Library functions used by the program -/

/-- Inner loop of `strings.Split s sep` for a non-empty `sep`: `skip` counts the bytes
of a separator occurrence that are still to be dropped, `acc` holds the bytes of
the current piece, last byte first. The leftmost occurrence of `sep` always ends
the current piece. -/
def splitGo (sep : GoString) : GoString → Nat → GoString → List GoString
  | [], _, acc => [acc.reverse]
  | _ :: cs, skip + 1, acc => splitGo sep cs skip acc
  | c :: cs, 0, acc =>
    if sep.isPrefixOf (c :: cs) then acc.reverse :: splitGo sep cs (sep.length - 1) []
    else splitGo sep cs 0 (c :: acc)

/-- Go `strings.Split(s, sep)`: the pieces of `s` between the occurrences of `sep`,
found left to right; with an empty `sep` the string is exploded into its bytes. -/
def Split (s sep : GoString) : List GoString :=
  match sep with
  | [] => s.map fun c => [c]
  | _ :: _ => splitGo sep s 0 []

/-- The two kinds of `*strconv.NumError` that `strconv.Atoi` reports. -/
inductive NumError where
  /-- Go `strconv.ErrSyntax`: empty text or an invalid digit. -/
  | errSyn
  /-- Go `strconv.ErrRange`: the value does not fit the integer type. -/
  | errRange
  deriving DecidableEq, Repr

/-- Go `lower(c)` of package strconv: `c | ('x' - 'X')`. -/
def lower (c : Char) : Nat := c.toNat ||| 32

/-- The digit value `strconv.ParseUint` gives to a byte, `none` when the byte is
neither a decimal digit nor a letter. -/
def digitVal (c : Char) : Option Nat :=
  if 48 ≤ c.toNat ∧ c.toNat ≤ 57 then some (c.toNat - 48)
  else if 97 ≤ lower c ∧ lower c ≤ 122 then some (lower c - 97 + 10)
  else none

/-- Go `maxUint64/10 + 1`, the cutoff of `strconv.ParseUint` in base 10. -/
def cutoff10 : Nat := 18446744073709551615 / 10 + 1

/-- The digit loop of `strconv.ParseUint(s, 10, bitSize)`; `n` is the `uint64`
accumulator and `maxVal = 1<<bitSize - 1`. -/
def parseUintLoop (maxVal : Nat) : GoString → Nat → Nat × Option NumError
  | [], n => (n, none)
  | c :: cs, n =>
    match digitVal c with
    | none => (0, some .errSyn)
    | some d =>
      if d ≥ 10 then (0, some .errSyn)
      else if n ≥ cutoff10 then (maxVal, some .errRange)
      else
        let n10 := n * 10 % 2 ^ 64
        let n1 := (n10 + d) % 2 ^ 64
        if n1 < n10 ∨ n1 > maxVal then (maxVal, some .errRange)
        else parseUintLoop maxVal cs n1

/-- Go `strconv.ParseUint(s, 10, 0)` on a platform whose `int` has `intSize` bits. -/
def ParseUint (intSize : Nat) (s : GoString) : Nat × Option NumError :=
  match s with
  | [] => (0, some .errSyn)
  | _ :: _ => parseUintLoop (2 ^ intSize - 1) s 0

/-- The sign handling and range check of `strconv.ParseInt(s, 10, 0)`, after the
empty-string test; `neg` tells whether a leading `-` was removed. -/
def parseIntSigned (intSize : Nat) (neg : Bool) (s : GoString) : Int × Option NumError :=
  match ParseUint intSize s with
  | (_, some .errSyn) => (0, some .errSyn)
  | (un, _) =>
    let cutoff := 2 ^ (intSize - 1)
    if !neg ∧ un ≥ cutoff then ((cutoff : Nat) - 1, some .errRange)
    else if neg ∧ un > cutoff then (-(cutoff : Nat), some .errRange)
    else if neg then (-(un : Nat), none)
    else ((un : Nat), none)

/-- Go `strconv.ParseInt(s, 10, 0)`. -/
def ParseInt (intSize : Nat) (s : GoString) : Int × Option NumError :=
  match s with
  | [] => (0, some .errSyn)
  | c :: cs =>
    if c = '+' then parseIntSigned intSize false cs
    else if c = '-' then parseIntSigned intSize true cs
    else parseIntSigned intSize false (c :: cs)

/-- Go `strconv.Atoi(s)`, documented as `ParseInt(s, 10, 0)` converted to `int`:
the value and the error, if any. On a syntax error the value is 0; on a range
error it is the integer of largest magnitude with the sign of the text. -/
def Atoi (intSize : Nat) (s : GoString) : Int × Option NumError :=
  ParseInt intSize s

/-! ## The program -/

/-- The run-time panics the program can raise. -/
inductive Panic where
  /-- A slice expression such as `passHash[:5]` on a string that is too short. -/
  | sliceBounds
  /-- An index expression such as `splitPwned[1]` past the end of the slice. -/
  | indexOutOfRange
  deriving DecidableEq, Repr

/-- How a call ends. -/
inductive Outcome (α : Type) where
  /-- The function returns a value. -/
  | ret (a : α)
  /-- The goroutine panics; the process crashes. -/
  | panic (p : Panic)
  /-- The process exits with the given status (`log.Fatalln` exits with 1). -/
  | exit (code : Nat)
  deriving DecidableEq, Repr

/-- The observable actions of the program, in the order they happen. -/
inductive Event where
  /-- Call `http.Get(url)`. -/
  | httpGet (url : GoString)
  /-- Call `log.Println(err)` for a failed `strconv.Atoi`. -/
  | logPrintln (err : NumError)
  /-- Call `log.Fatalln(err)`. -/
  | logFatalln
  /-- Call `fmt.Printf("%s has been leaked %d times!\n", pfx, count)`. -/
  | printLeaked (pfx : GoString) (count : Int)
  deriving DecidableEq, Repr

/-- The remote service as the program sees it: `http.Get(url)` followed by
`ioutil.ReadAll(resp.Body)` gives the body, or one of the two calls fails. -/
abbrev Remote := GoString → Option GoString

/-- The text `"https://api.pwnedpasswords.com/range/"`. -/
def apiRange : GoString := "https://api.pwnedpasswords.com/range/".toList

/-- The record separator `"\r\n"`. -/
def crlf : GoString := [Char.ofNat 13, Char.ofNat 10]

/-- The field separator `":"`. -/
def colon : GoString := [':']

/-- The `for _, pwned := range pwnList` loop of `isPwned`, started with the current
values of `pwnStatus` and `pwnCount`; `hashTail` is `passHash[5:]`. -/
def matchLoop (intSize : Nat) (hashTail : GoString) :
    List GoString → Bool × Int → List Event × Outcome (Bool × Int)
  | [], st => ([], .ret st)
  | pwned :: rest, st =>
    match Split pwned colon with
    | [] => ([], .panic .indexOutOfRange)
    | hashEnd :: more =>
      if hashEnd = hashTail then
        match more with
        | [] => ([], .panic .indexOutOfRange)
        | countText :: _ =>
          match Atoi intSize countText with
          | (n, none) => matchLoop intSize hashTail rest (true, n)
          | (n, some err) =>
            let r := matchLoop intSize hashTail rest (true, n)
            (.logPrintln err :: r.1, r.2)
      else matchLoop intSize hashTail rest st

/-- The request URL of `isPwned`: `fmt.Sprintf(".../range/%s", passHash[:5])`. -/
def reqUrl (passHash : GoString) : GoString := apiRange ++ passHash.take 5

/-- Go `isPwned(passHash)`. -/
def isPwned (intSize : Nat) (remote : Remote) (passHash : GoString) :
    List Event × Outcome (Bool × Int) :=
  if passHash.length < 5 then ([], .panic .sliceBounds)
  else
    match remote (reqUrl passHash) with
    | none => ([.httpGet (reqUrl passHash), .logFatalln], .exit 1)
    | some body =>
      let r := matchLoop intSize (passHash.drop 5) (Split body crlf) (false, 0)
      (.httpGet (reqUrl passHash) :: r.1, r.2)

/-- The `for fileScanner.Scan()` loop of `checkFromFile` over the lines of the file. -/
def checkLines (intSize : Nat) (remote : Remote) : List GoString → List Event × Outcome Unit
  | [] => ([], .ret ())
  | passHash :: rest =>
    match isPwned intSize remote passHash with
    | (ev, .panic p) => (ev, .panic p)
    | (ev, .exit code) => (ev, .exit code)
    | (ev, .ret (pwnStatus, pwnCount)) =>
      if pwnStatus then
        if passHash.length < 5 then (ev, .panic .sliceBounds)
        else
          let r := checkLines intSize remote rest
          (ev ++ .printLeaked (passHash.take 5) pwnCount :: r.1, r.2)
      else
        let r := checkLines intSize remote rest
        (ev ++ r.1, r.2)

/-- Go `checkFromFile(hashfile)`; `file` is `none` when `os.Open` fails and
otherwise the lines the scanner yields. -/
def checkFromFile (intSize : Nat) (remote : Remote) (file : Option (List GoString)) :
    List Event × Outcome Unit :=
  match file with
  | none => ([.logFatalln], .exit 1)
  | some lines => checkLines intSize remote lines

/-! ## The digest -/

/-- Go `bits.RotateLeft32(x, k)` for `0 < k < 32`. -/
def rotl32 (x k : Nat) : Nat := ((x <<< k) ||| (x >>> (32 - k))) % 2 ^ 32

/-- The five chaining words `h[0..4]` of a SHA-1 digest state. -/
structure Sha1State where
  h0 : Nat
  h1 : Nat
  h2 : Nat
  h3 : Nat
  h4 : Nat
  deriving DecidableEq, Repr

/-- The initial chaining values of SHA-1. -/
def sha1Init : Sha1State := ⟨0x67452301, 0xEFCDAB89, 0x98BADCFE, 0x10325476, 0xC3D2E1F0⟩

/-- Big-endian 32-bit words of a block of bytes. -/
def beWords : List Nat → List Nat
  | b0 :: b1 :: b2 :: b3 :: rest =>
    ((b0 % 256) <<< 24 ||| (b1 % 256) <<< 16 ||| (b2 % 256) <<< 8 ||| (b3 % 256)) :: beWords rest
  | _ => []

/-- Extend the message schedule by `k` words; `w` holds the words so far, newest first. -/
def schedule : Nat → List Nat → List Nat
  | 0, w => w
  | k + 1, w =>
    schedule k (rotl32 (w.getD 2 0 ^^^ w.getD 7 0 ^^^ w.getD 13 0 ^^^ w.getD 15 0) 1 :: w)

/-- One of the 80 rounds: round number `i`, schedule word `wi`. -/
def sha1Round (i wi : Nat) (s : Sha1State) : Sha1State :=
  let f :=
    if i < 20 then (s.h1 &&& s.h2) ||| ((s.h1 ^^^ 0xFFFFFFFF) &&& s.h3)
    else if i < 40 then s.h1 ^^^ s.h2 ^^^ s.h3
    else if i < 60 then ((s.h1 ||| s.h2) &&& s.h3) ||| (s.h1 &&& s.h2)
    else s.h1 ^^^ s.h2 ^^^ s.h3
  let k :=
    if i < 20 then 0x5A827999 else if i < 40 then 0x6ED9EBA1
    else if i < 60 then 0x8F1BBCDC else 0xCA62C1D6
  let t := (rotl32 s.h0 5 + f + s.h4 + wi + k) % 2 ^ 32
  ⟨t, s.h0, rotl32 s.h1 30, s.h2, s.h3⟩

/-- The 80 rounds over the message schedule `ws`, starting at round `i`. -/
def sha1Rounds : Nat → List Nat → Sha1State → Sha1State
  | _, [], s => s
  | i, wi :: ws, s => sha1Rounds (i + 1) ws (sha1Round i wi s)

/-- Go `block(dig, p)` for one 64-byte chunk. -/
def sha1Block (h : Sha1State) (chunk : List Nat) : Sha1State :=
  let w := (schedule 64 (beWords chunk).reverse).reverse
  let s := sha1Rounds 0 w h
  ⟨(h.h0 + s.h0) % 2 ^ 32, (h.h1 + s.h1) % 2 ^ 32, (h.h2 + s.h2) % 2 ^ 32,
   (h.h3 + s.h3) % 2 ^ 32, (h.h4 + s.h4) % 2 ^ 32⟩

/-- Go `block(dig, p)` over the first `n` 64-byte chunks of `p`. -/
def sha1Blocks : Nat → List Nat → Sha1State → Sha1State
  | 0, _, h => h
  | n + 1, p, h => sha1Blocks n (p.drop 64) (sha1Block h (p.take 64))

/-- Go `binary.BigEndian.PutUint64`: the eight bytes of `n`, most significant first. -/
def be64 (n : Nat) : List Nat :=
  [n >>> 56 % 256, n >>> 48 % 256, n >>> 40 % 256, n >>> 32 % 256,
   n >>> 24 % 256, n >>> 16 % 256, n >>> 8 % 256, n % 256]

/-- Go `binary.BigEndian.PutUint32`: the four bytes of `n`, most significant first. -/
def be32 (n : Nat) : List Nat :=
  [n >>> 24 % 256, n >>> 16 % 256, n >>> 8 % 256, n % 256]

/-- The padding of `checkSum`: a `0x80` byte, zero bytes up to 56 modulo 64, then the
length in bits as a `uint64`. -/
def sha1Pad (data : List Nat) : List Nat :=
  let len := data.length
  let t := if len % 64 < 56 then 56 - len % 64 else 64 + 56 - len % 64
  data ++ 0x80 :: List.replicate (t - 1) 0 ++ be64 (len * 8 % 2 ^ 64)

/-- Go `sha1.Sum(data)`: the 20 bytes of the SHA-1 checksum of `data` (a byte is a
natural number below 256). -/
def sha1Sum (data : List Nat) : List Nat :=
  let p := sha1Pad data
  let h := sha1Blocks (p.length / 64) p sha1Init
  be32 h.h0 ++ be32 h.h1 ++ be32 h.h2 ++ be32 h.h3 ++ be32 h.h4

/-- Go `udigits`, the digits of the `%X` verb. -/
def upperHex : GoString := "0123456789ABCDEF".toList

/-- The two characters `%X` prints for one byte. -/
def hexByte (b : Nat) : GoString := [upperHex.getD (b >>> 4) '0', upperHex.getD (b &&& 15) '0']

/-- Go `fmt.Sprintf("%X", bytes)` for a byte array: two upper-case hexadecimal
characters per byte. -/
def sprintfX (bytes : List Nat) : GoString := bytes.flatMap hexByte

/-- The digest `main` and `buildHashFile` compute for a password:
`fmt.Sprintf("%X", sha1.Sum(password))`. -/
def passHashOf (password : List Nat) : GoString := sprintfX (sha1Sum password)

/-! ## Vocabulary of the statements -/

/-- The URLs of the HTTP requests among the events, in order. -/
def requests : List Event → List GoString
  | [] => []
  | .httpGet url :: ev => url :: requests ev
  | _ :: ev => requests ev

/-- The text of a record before its first `:` (the whole record when it has none). -/
def beforeColon (r : GoString) : GoString := r.takeWhile fun c => c ≠ ':'

/-- The decimal text of a natural number. -/
def decimal (n : Nat) : GoString := (Nat.repr n).toList

/-- The record `S:C`. -/
def record (s c : GoString) : GoString := s ++ ':' :: c

/-- The bytes of an ASCII text. -/
def bytesOf (s : String) : List Nat := s.toList.map Char.toNat

/-- An upper-case hexadecimal digit: one of `0-9`, `A-F`. -/
def isUpperHex (c : Char) : Prop := ('0' ≤ c ∧ c ≤ '9') ∨ ('A' ≤ c ∧ c ≤ 'F')

/-- One step of reading a decimal numeral: append the digit `c` to the value `a`. -/
def decStep (a : Nat) (c : Char) : Nat := a * 10 + (c.toNat - 48)

/-- The byte is one of the decimal digits `0` to `9`. -/
def isDecDigit (c : Char) : Prop := 48 ≤ c.toNat ∧ c.toNat ≤ 57

/-- The value `strconv.ParseInt` returns with an error of kind `e`: 0 with a syntax
error, the `int` of largest magnitude and of the sign `neg` with a range error. -/
def errorValue (intSize : Nat) (neg : Bool) (e : NumError) : Int :=
  match e with
  | .errSyn => 0
  | .errRange =>
    if neg then -((2 ^ (intSize - 1) : Nat) : Int) else ((2 ^ (intSize - 1) : Nat) : Int) - 1

/-- The value `strconv.Atoi` returns with an error of kind `e` for the text `s`: 0 with
a syntax error; with a range error the largest `int`, or the smallest when `s` begins
with `-`. -/
def atoiErrorValue (intSize : Nat) (s : GoString) (e : NumError) : Int :=
  errorValue intSize (decide (s.head? = some '-')) e

/-- The text contains the separator `"\r\n"`. -/
def hasCrlf : GoString → Bool
  | [] => false
  | c :: cs => crlf.isPrefixOf (c :: cs) || hasCrlf cs

/-! ## Example inputs -/

/-- A digest whose suffix is `0018A45C4D1DEF81644B54AB7F969B88D65`. -/
def exDigest : GoString := "5BAA60018A45C4D1DEF81644B54AB7F969B88D65".toList

/-- The suffix of `exDigest`. -/
def exSuffix : GoString := "0018A45C4D1DEF81644B54AB7F969B88D65".toList

/-- A response body of three records, the second one for the suffix of `exDigest`. -/
def exBody : GoString :=
  ("0005AD76BD555C1D6D771DE417A4B87E4B4:4\r\n0018A45C4D1DEF81644B54AB7F969B88D65:3\r\n" ++
    "011053FD0102E94D6AE2F8B83D76FAF94F6:1").toList

/-- A remote service that answers every request with `body`. -/
def answer (body : GoString) : Remote := fun _ => some body

/-- The digest `exDigest` in lower-case hexadecimal. -/
def exDigestLower : GoString := "5baa60018a45c4d1def81644b54ab7f969b88d65".toList

/-- A remote service that fails on the request of `bad` and answers every other one
with `body`. -/
def failingFor (bad body : GoString) : Remote :=
  fun url => if url = reqUrl bad then none else some body

/-! ## Splitting a body at `"\r\n"` -/

theorem splitGo_crlf_sep (rest acc : GoString) :
    splitGo crlf (crlf ++ rest) 0 acc = acc.reverse :: splitGo crlf rest 0 [] := by
  simp [splitGo, crlf, List.isPrefixOf]

theorem splitGo_crlf_record (r rest acc : GoString) (hr : hasCrlf r = false) :
    splitGo crlf (r ++ crlf ++ rest) 0 acc = (acc.reverse ++ r) :: splitGo crlf rest 0 [] := by
  induction r generalizing acc with
  | nil => simpa using splitGo_crlf_sep rest acc
  | cons x xs ih =>
    simp only [hasCrlf, Bool.or_eq_false_iff] at hr
    obtain ⟨hx, hxs⟩ := hr
    have hnot : crlf.isPrefixOf (x :: (xs ++ crlf ++ rest)) = false := by
      cases xs with
      | nil =>
        simp only [crlf, List.isPrefixOf, List.nil_append, List.cons_append] at hx ⊢
        simp
      | cons y ys =>
        simp only [crlf, List.isPrefixOf, List.cons_append] at hx ⊢
        simpa using hx
    have := ih (x :: acc) hxs
    simp only [List.cons_append, List.append_assoc] at this hnot ⊢
    rw [splitGo]
    simp only [hnot]
    simpa using this

theorem splitGo_crlf_last (r acc : GoString) (hr : hasCrlf r = false) :
    splitGo crlf r 0 acc = [acc.reverse ++ r] := by
  induction r generalizing acc with
  | nil => simp [splitGo]
  | cons x xs ih =>
    simp only [hasCrlf, Bool.or_eq_false_iff] at hr
    obtain ⟨hx, hxs⟩ := hr
    rw [splitGo]
    simp only [hx]
    simpa using ih (x :: acc) hxs

/-- `strings.Split(body, "\r\n")` gives back the records of a body made of records without
`"\r\n"` joined by `"\r\n"`. -/
theorem Split_crlf_intercalate (r : GoString) (rs : List GoString)
    (h : ∀ x ∈ r :: rs, hasCrlf x = false) :
    Split (crlf.intercalate (r :: rs)) crlf = r :: rs := by
  have hS : ∀ s, Split s crlf = splitGo crlf s 0 [] := fun s => by simp [Split, crlf]
  rw [hS]
  induction rs generalizing r with
  | nil =>
    have := splitGo_crlf_last r [] (h r (by simp))
    simpa [List.intercalate] using this
  | cons r2 rs ih =>
    have h2 := ih r2 fun x hx => h x (List.mem_cons_of_mem _ hx)
    have e : crlf.intercalate (r :: r2 :: rs) = r ++ crlf ++ crlf.intercalate (r2 :: rs) := by
      simp [List.intercalate, List.intersperse]
    rw [e, splitGo_crlf_record r _ [] (h r (by simp)), h2]
    simp

/-! ## Splitting a record at `:` -/

theorem splitGo_colon_cons (c : Char) (cs acc : GoString) :
    splitGo colon (c :: cs) 0 acc =
      if c = ':' then acc.reverse :: splitGo colon cs 0 [] else splitGo colon cs 0 (c :: acc) := by
  by_cases h : c = ':'
  · subst h
    simp [splitGo, colon, List.isPrefixOf]
  · have h2 : ¬ ':' = c := fun e => h e.symm
    simp [splitGo, colon, List.isPrefixOf, h, h2]

theorem splitGo_colon_head (s acc : GoString) :
    ∃ more, splitGo colon s 0 acc = (acc.reverse ++ beforeColon s) :: more := by
  induction s generalizing acc with
  | nil => exact ⟨[], by simp [splitGo, beforeColon]⟩
  | cons c cs ih =>
    rw [splitGo_colon_cons]
    by_cases h : c = ':'
    · exact ⟨splitGo colon cs 0 [], by simp [h, beforeColon]⟩
    · obtain ⟨more, hm⟩ := ih (c :: acc)
      exact ⟨more, by simp [h, hm, beforeColon, List.takeWhile_cons]⟩

theorem splitGo_colon_record (s c acc : GoString) (hs : ':' ∉ s) :
    splitGo colon (record s c) 0 acc = (acc.reverse ++ s) :: splitGo colon c 0 [] := by
  induction s generalizing acc with
  | nil => simp [record, splitGo_colon_cons]
  | cons x xs ih =>
    have hx : x ≠ ':' := fun e => hs (by simp [e])
    have hxs : ':' ∉ xs := fun e => hs (by simp [e])
    have := ih (x :: acc) hxs
    simp only [record, List.cons_append] at this ⊢
    rw [splitGo_colon_cons, if_neg hx, this]
    simp

/-- The first piece of `strings.Split(r, ":")` is the text before the first `:`. -/
theorem Split_colon_head (r : GoString) :
    ∃ more, Split r colon = beforeColon r :: more := by
  obtain ⟨more, h⟩ := splitGo_colon_head r []
  exact ⟨more, by simpa [Split, colon] using h⟩

/-- Splitting the record `S:C`, `S` without `:`, gives `S`, then the text of `C` before
its first `:`. -/
theorem Split_colon_record (s c : GoString) (hs : ':' ∉ s) :
    ∃ more, Split (record s c) colon = s :: beforeColon c :: more := by
  obtain ⟨more, h⟩ := splitGo_colon_head c []
  refine ⟨more, ?_⟩
  have h2 := splitGo_colon_record s c [] hs
  simp only [List.reverse_nil, List.nil_append] at h h2
  simp only [Split, colon] at *
  rw [h2, h]

theorem beforeColon_of_not_mem (s : GoString) (hs : ':' ∉ s) : beforeColon s = s := by
  unfold beforeColon
  rw [List.takeWhile_eq_self_iff]
  intro c hc
  have : c ≠ ':' := fun e => hs (e ▸ hc)
  simpa using this

theorem beforeColon_record (s c : GoString) (hs : ':' ∉ s) : beforeColon (record s c) = s := by
  obtain ⟨m1, h1⟩ := Split_colon_head (record s c)
  obtain ⟨m2, h2⟩ := Split_colon_record s c hs
  rw [h1] at h2
  exact (List.cons.inj h2).1

/-- A record that contains a `:` is `S:C` for the text `S` before its first `:`. -/
theorem record_of_mem_colon (r : GoString) (h : ':' ∈ r) :
    ∃ c, r = record (beforeColon r) c ∧ ':' ∉ beforeColon r := by
  induction r with
  | nil => simp at h
  | cons x xs ih =>
    by_cases hx : x = ':'
    · exact ⟨xs, by simp [record, beforeColon, hx]⟩
    · have hxs : ':' ∈ xs := by
        rcases List.mem_cons.mp h with e | e
        · exact absurd e.symm hx
        · exact e
      obtain ⟨c, hc, hn⟩ := ih hxs
      refine ⟨c, ?_, ?_⟩
      · have : beforeColon (x :: xs) = x :: beforeColon xs := by
          simp [beforeColon, List.takeWhile_cons, hx]
        rw [this]
        simp only [record, List.cons_append] at hc ⊢
        rw [← hc]
      · have : beforeColon (x :: xs) = x :: beforeColon xs := by
          simp [beforeColon, List.takeWhile_cons, hx]
        rw [this]
        intro hm
        rcases List.mem_cons.mp hm with e | e
        · exact hx e.symm
        · exact hn e

/-! ## The matching loop -/

/-- A record whose text before `:` differs from the queried suffix is passed over. -/
theorem matchLoop_cons_skip (intSize : Nat) (hashTail r : GoString) (rest : List GoString)
    (st : Bool × Int) (h : beforeColon r ≠ hashTail) :
    matchLoop intSize hashTail (r :: rest) st = matchLoop intSize hashTail rest st := by
  obtain ⟨more, hm⟩ := Split_colon_head r
  rw [matchLoop]
  simp only [hm, if_neg h]

/-- A record `S:C` for the queried suffix `S` sets the status and stores what
`strconv.Atoi` returns for the text after the `:`. -/
theorem matchLoop_cons_hit (intSize : Nat) (s c : GoString) (rest : List GoString)
    (st : Bool × Int) (hs : ':' ∉ s) :
    matchLoop intSize s (record s c :: rest) st =
      ((match (Atoi intSize (beforeColon c)).2 with
        | none => []
        | some err => [Event.logPrintln err]) ++
        (matchLoop intSize s rest (true, (Atoi intSize (beforeColon c)).1)).1,
       (matchLoop intSize s rest (true, (Atoi intSize (beforeColon c)).1)).2) := by
  obtain ⟨more, hm⟩ := Split_colon_record s c hs
  rw [matchLoop]
  simp only [hm, if_true]
  rcases hA : Atoi intSize (beforeColon c) with ⟨n, _ | err⟩ <;> simp

theorem matchLoop_skip_all (intSize : Nat) (hashTail : GoString) (recs : List GoString)
    (st : Bool × Int) (h : ∀ r ∈ recs, beforeColon r ≠ hashTail) :
    matchLoop intSize hashTail recs st = ([], .ret st) := by
  induction recs with
  | nil => simp [matchLoop]
  | cons r rest ih =>
    rw [matchLoop_cons_skip _ _ _ _ _ (h r (by simp))]
    exact ih fun r hr => h r (by simp [hr])

/-- The loop over `pre ++ rest`: the loop over `pre`, continued over `rest` when it
reaches the end of `pre`. -/
theorem matchLoop_append (intSize : Nat) (hashTail : GoString) (pre rest : List GoString)
    (st : Bool × Int) :
    matchLoop intSize hashTail (pre ++ rest) st =
      match matchLoop intSize hashTail pre st with
      | (ev, .ret st2) =>
        (ev ++ (matchLoop intSize hashTail rest st2).1, (matchLoop intSize hashTail rest st2).2)
      | other => other := by
  induction pre generalizing st with
  | nil => simp [matchLoop]
  | cons r pre ih =>
    obtain ⟨more, hm⟩ := Split_colon_head r
    simp only [List.cons_append]
    rw [matchLoop, matchLoop]
    simp only [hm]
    by_cases hr : beforeColon r = hashTail
    · simp only [hr, if_true]
      cases more with
      | nil => rfl
      | cons c more2 =>
        simp only
        rcases hA : Atoi intSize c with ⟨n, _ | err⟩
        · simp only
          exact ih (true, n)
        · simp only
          rw [ih (true, n)]
          rcases matchLoop intSize hashTail pre (true, n) with ⟨ev, _ | _ | _⟩ <;> simp
    · simp only [if_neg hr]
      exact ih st

/-- The loop reaches the end of records each of which, when its text before `:` is
the queried suffix, does contain a `:`. -/
theorem matchLoop_returns (intSize : Nat) (hashTail : GoString) (recs : List GoString)
    (st : Bool × Int) (h : ∀ r ∈ recs, beforeColon r = hashTail → ':' ∈ r) :
    ∃ st2, (matchLoop intSize hashTail recs st).2 = .ret st2 := by
  induction recs generalizing st with
  | nil => exact ⟨st, by simp [matchLoop]⟩
  | cons r rest ih =>
    have hrest : ∀ r ∈ rest, beforeColon r = hashTail → ':' ∈ r :=
      fun x hx => h x (by simp [hx])
    by_cases hr : beforeColon r = hashTail
    · obtain ⟨c, hc, hn⟩ := record_of_mem_colon r (h r (by simp) hr)
      rw [hc, hr, matchLoop_cons_hit intSize hashTail c rest st (hr ▸ hn)]
      exact ih _ hrest
    · rw [matchLoop_cons_skip _ _ _ _ _ hr]
      exact ih st hrest

/-- The outcome of `isPwned` once the request has been answered. -/
theorem isPwned_out (intSize : Nat) (remote : Remote) (passHash body : GoString)
    (hlen : 5 ≤ passHash.length) (hbody : remote (reqUrl passHash) = some body) :
    isPwned intSize remote passHash =
      (.httpGet (reqUrl passHash) ::
        (matchLoop intSize (passHash.drop 5) (Split body crlf) (false, 0)).1,
       (matchLoop intSize (passHash.drop 5) (Split body crlf) (false, 0)).2) := by
  have : ¬ passHash.length < 5 := by omega
  simp [isPwned, this, hbody]

/-! ## `strconv.Atoi` -/

theorem foldl_decStep_ge (s : GoString) (a : Nat) : a ≤ s.foldl decStep a := by
  induction s generalizing a with
  | nil => simp
  | cons c cs ih =>
    have := ih (decStep a c)
    simp only [List.foldl_cons]
    unfold decStep at this ⊢
    omega

theorem digitVal_of_isDecDigit (c : Char) (h : isDecDigit c) :
    digitVal c = some (c.toNat - 48) := by
  unfold isDecDigit at h
  simp [digitVal, h]

/-- On a text of decimal digits the loop of `ParseUint` computes the value of the
numeral, or stops with a range error as soon as the value exceeds `maxVal`. -/
theorem parseUintLoop_digits (maxVal : Nat) (hmax : maxVal < 2 ^ 64) (s : GoString) (n : Nat)
    (hn : n ≤ maxVal) (hs : ∀ c ∈ s, isDecDigit c) :
    parseUintLoop maxVal s n =
      if s.foldl decStep n ≤ maxVal then (s.foldl decStep n, none)
      else (maxVal, some .errRange) := by
  have h64 : (2 : Nat) ^ 64 = 18446744073709551616 := by norm_num
  rw [h64] at hmax
  induction s generalizing n with
  | nil => simp [parseUintLoop, hn]
  | cons c cs ih =>
    have hc : isDecDigit c := hs c (by simp)
    have hcs : ∀ c ∈ cs, isDecDigit c := fun x hx => hs x (by simp [hx])
    have hge := foldl_decStep_ge cs (decStep n c)
    have hval : decStep n c = n * 10 + (c.toNat - 48) := rfl
    rw [parseUintLoop, digitVal_of_isDecDigit c hc]
    unfold isDecDigit at hc
    simp only [List.foldl_cons, h64]
    have hd : ¬ (c.toNat - 48 ≥ 10) := by omega
    rw [if_neg hd]
    by_cases hcut : n ≥ cutoff10
    · rw [if_pos hcut]
      have : ¬ (List.foldl decStep (decStep n c) cs ≤ maxVal) := by
        unfold cutoff10 at hcut
        omega
      rw [if_neg this]
    · rw [if_neg hcut]
      unfold cutoff10 at hcut
      have h10 : n * 10 % 18446744073709551616 = n * 10 := Nat.mod_eq_of_lt (by omega)
      rw [h10]
      by_cases hov : n * 10 + (c.toNat - 48) < 18446744073709551616
      · have h1 : (n * 10 + (c.toNat - 48)) % 18446744073709551616 = n * 10 + (c.toNat - 48) :=
          Nat.mod_eq_of_lt hov
        rw [h1]
        by_cases hbig : n * 10 + (c.toNat - 48) > maxVal
        · have hcond : n * 10 + (c.toNat - 48) < n * 10 ∨ n * 10 + (c.toNat - 48) > maxVal :=
            Or.inr hbig
          rw [if_pos hcond]
          have : ¬ (List.foldl decStep (decStep n c) cs ≤ maxVal) := by
            omega
          rw [if_neg this]
        · have hcond : ¬ (n * 10 + (c.toNat - 48) < n * 10 ∨ n * 10 + (c.toNat - 48) > maxVal) := by
            omega
          rw [if_neg hcond]
          exact ih (n * 10 + (c.toNat - 48)) (by omega) hcs
      · have hcond : (n * 10 + (c.toNat - 48)) % 18446744073709551616 < n * 10 ∨
            (n * 10 + (c.toNat - 48)) % 18446744073709551616 > maxVal := by
          left
          omega
        rw [if_pos hcond]
        have : ¬ (List.foldl decStep (decStep n c) cs ≤ maxVal) := by
          omega
        rw [if_neg this]

theorem digitChar_toNat (k : Nat) (hk : k < 10) : (Nat.digitChar k).toNat = 48 + k := by
  interval_cases k <;> rfl

/-- The digits `Nat.toDigitsCore` produces are decimal digits and read back as `n`. -/
theorem toDigitsCore_spec (fuel n : Nat) (ds : GoString) (hf : n < fuel)
    (hds : ∀ c ∈ ds, isDecDigit c) :
    (∀ c ∈ Nat.toDigitsCore 10 fuel n ds, isDecDigit c) ∧
    (Nat.toDigitsCore 10 fuel n ds).foldl decStep 0 = ds.foldl decStep n ∧
    Nat.toDigitsCore 10 fuel n ds ≠ [] := by
  induction fuel generalizing n ds with
  | zero => omega
  | succ fuel ih =>
    have hk : n % 10 < 10 := Nat.mod_lt _ (by norm_num)
    have hdc := digitChar_toNat (n % 10) hk
    have hdig : isDecDigit (Nat.digitChar (n % 10)) := by
      unfold isDecDigit
      omega
    have hds2 : ∀ c ∈ Nat.digitChar (n % 10) :: ds, isDecDigit c := by
      intro c hc
      rcases List.mem_cons.mp hc with e | e
      · exact e ▸ hdig
      · exact hds c e
    have hstep : decStep (n / 10) (Nat.digitChar (n % 10)) = n := by
      unfold decStep
      omega
    simp only [Nat.toDigitsCore]
    by_cases h0 : n / 10 = 0
    · simp only [h0, if_true]
      refine ⟨hds2, ?_, by simp⟩
      simp only [List.foldl_cons]
      have : decStep 0 (Nat.digitChar (n % 10)) = n := by
        rw [← h0]
        exact hstep
      rw [this]
    · simp only [if_neg h0]
      have hlt : n / 10 < fuel := by omega
      obtain ⟨a, b, c⟩ := ih (n / 10) (Nat.digitChar (n % 10) :: ds) hlt hds2
      refine ⟨a, ?_, c⟩
      rw [b, List.foldl_cons, hstep]

theorem decimal_spec (n : Nat) :
    (∀ c ∈ decimal n, isDecDigit c) ∧ (decimal n).foldl decStep 0 = n ∧ decimal n ≠ [] := by
  have h := toDigitsCore_spec (n + 1) n [] (by omega) (by simp)
  simpa [decimal, Nat.repr, Nat.toDigits] using h

theorem not_mem_colon_of_digits (s : GoString) (h : ∀ c ∈ s, isDecDigit c) : ':' ∉ s := by
  intro hm
  have := h _ hm
  unfold isDecDigit at this
  have e : (':' : Char).toNat = 58 := rfl
  omega

/-- `strconv.Atoi` reads a text of decimal digits as its value when the value fits
in an `int`. -/
theorem Atoi_digits (intSize : Nat) (hsize : intSize = 32 ∨ intSize = 64) (s : GoString)
    (hne : s ≠ []) (hs : ∀ c ∈ s, isDecDigit c) (hfit : s.foldl decStep 0 < 2 ^ (intSize - 1)) :
    Atoi intSize s = (((s.foldl decStep 0 : Nat) : Int), none) := by
  have hmax : 2 ^ intSize - 1 < 2 ^ 64 ∧ 2 ^ (intSize - 1) ≤ 2 ^ intSize - 1 := by
    rcases hsize with e | e <;> subst e <;> norm_num
  have hloop := parseUintLoop_digits (2 ^ intSize - 1) hmax.1 s 0 (Nat.zero_le _) hs
  rw [if_pos (by omega)] at hloop
  cases s with
  | nil => exact absurd rfl hne
  | cons c cs =>
    have hc : isDecDigit c := hs c (by simp)
    unfold isDecDigit at hc
    have hplus : c ≠ '+' := by
      intro e
      rw [e] at hc
      have : ('+' : Char).toNat = 43 := rfl
      omega
    have hminus : c ≠ '-' := by
      intro e
      rw [e] at hc
      have : ('-' : Char).toNat = 45 := rfl
      omega
    have hnot : ¬ ((!false) = true ∧ List.foldl decStep 0 (c :: cs) ≥ 2 ^ (intSize - 1)) := by
      intro h
      omega
    simp only [Atoi, ParseInt, if_neg hplus, if_neg hminus, parseIntSigned, ParseUint, hloop]
    rw [if_neg hnot]
    simp

/-- `strconv.Atoi` reads the decimal text of `n` as `n` when `n` fits in an `int`. -/
theorem Atoi_decimal (intSize : Nat) (hsize : intSize = 32 ∨ intSize = 64) (n : Nat)
    (hfit : n < 2 ^ (intSize - 1)) : Atoi intSize (decimal n) = ((n : Int), none) := by
  obtain ⟨h1, h2, h3⟩ := decimal_spec n
  have := Atoi_digits intSize hsize (decimal n) h3 h1 (by rw [h2]; exact hfit)
  rw [h2] at this
  exact this

theorem parseIntSigned_error (intSize : Nat) (neg : Bool) (s : GoString) (e : NumError)
    (h : (parseIntSigned intSize neg s).2 = some e) :
    (parseIntSigned intSize neg s).1 = errorValue intSize neg e := by
  unfold parseIntSigned at h ⊢
  generalize ParseUint intSize s = p at h ⊢
  rcases p with ⟨un, _ | err⟩
  · cases neg <;> cases e <;> simp only [errorValue] at h ⊢ <;> (try split_ifs at h ⊢) <;>
      simp_all
  · cases err <;> cases neg <;> cases e <;> simp only [errorValue] at h ⊢ <;>
      (try split_ifs at h ⊢) <;> simp_all

/-- What `strconv.Atoi` returns together with an error. -/
theorem Atoi_error (intSize : Nat) (s : GoString) (e : NumError)
    (h : (Atoi intSize s).2 = some e) : (Atoi intSize s).1 = atoiErrorValue intSize s e := by
  unfold Atoi ParseInt at h ⊢
  cases s with
  | nil =>
    simp only at h ⊢
    cases e <;> simp_all [atoiErrorValue, errorValue]
  | cons c cs =>
    simp only at h ⊢
    by_cases hp : c = '+'
    · rw [if_pos hp] at h ⊢
      rw [parseIntSigned_error intSize false cs e h]
      subst hp
      simp [atoiErrorValue]
    · rw [if_neg hp] at h ⊢
      by_cases hm : c = '-'
      · rw [if_pos hm] at h ⊢
        rw [parseIntSigned_error intSize true cs e h]
        subst hm
        simp [atoiErrorValue]
      · rw [if_neg hm] at h ⊢
        rw [parseIntSigned_error intSize false (c :: cs) e h]
        simp [atoiErrorValue, hm]

/-- The loop over records that end with a record `S:C` for the queried suffix `S`,
followed only by records for other suffixes, returns what `strconv.Atoi` gives for
`C`, whatever the well-formed records before it. -/
theorem matchLoop_last_match (intSize : Nat) (s c : GoString) (pre post : List GoString)
    (st : Bool × Int) (hs : ':' ∉ s)
    (hpre : ∀ r ∈ pre, beforeColon r = s → ':' ∈ r)
    (hpost : ∀ r ∈ post, beforeColon r ≠ s) :
    (matchLoop intSize s (pre ++ record s c :: post) st).2 =
      .ret (true, (Atoi intSize (beforeColon c)).1) := by
  obtain ⟨st2, h2⟩ := matchLoop_returns intSize s pre st hpre
  rw [matchLoop_append]
  rcases hm : matchLoop intSize s pre st with ⟨ev, o⟩
  rw [hm] at h2
  simp only at h2
  subst h2
  simp only
  rw [matchLoop_cons_hit intSize s c post st2 hs, matchLoop_skip_all intSize s post _ hpost]

/-- The matching loop sends no request. -/
theorem requests_matchLoop (intSize : Nat) (hashTail : GoString) (recs : List GoString)
    (st : Bool × Int) : requests (matchLoop intSize hashTail recs st).1 = [] := by
  induction recs generalizing st with
  | nil => simp [matchLoop, requests]
  | cons r rest ih =>
    rw [matchLoop]
    split
    · simp [requests]
    · split_ifs
      · split
        · simp [requests]
        · split
          · exact ih _
          · simp [requests, ih]
      · exact ih st

/-! ## The claims -/

/-- C1, as stated, fails for a digest whose suffix contains `:`. For the digest
`00000A:B` (suffix `A:B`) and the body `A:B:3`, whose only record is `S:n` with
`S = A:B` and `n = 3`, `isPwned` returns `(false, 0)`: the record is split at every
`:`, so the text compared with the suffix is `A`. -/
theorem C1_counterexample :
    5 ≤ "00000A:B".toList.length ∧
    Split "A:B:3".toList crlf = [record ("00000A:B".toList.drop 5) (decimal 3)] ∧
    (isPwned 64 (answer "A:B:3".toList) "00000A:B".toList).2 = .ret (false, 0) := by
  decide

/-- C1 (amended): for every digest `D` of at least 5 characters whose suffix
`S = D[5:]` contains no `:`, and every response body whose CRLF-separated records
contain a record `S:n`, `n` the decimal text of a natural number that fits in an
`int`, and in which no other record has `S` as its text before `:`, `isPwned`
returns `(true, n)`. -/
theorem C1_found_count (intSize : Nat) (remote : Remote) (D body : GoString)
    (pre post : List GoString) (n : Nat)
    (hsize : intSize = 32 ∨ intSize = 64)
    (hlen : 5 ≤ D.length)
    (hcolon : ':' ∉ D.drop 5)
    (hbody : remote (reqUrl D) = some body)
    (hrec : Split body crlf = pre ++ record (D.drop 5) (decimal n) :: post)
    (hfit : n < 2 ^ (intSize - 1))
    (hother : ∀ r ∈ pre ++ post, beforeColon r ≠ D.drop 5) :
    (isPwned intSize remote D).2 = .ret (true, (n : Int)) := by
  rw [isPwned_out intSize remote D body hlen hbody, hrec]
  simp only
  have hpre : ∀ r ∈ pre, beforeColon r = D.drop 5 → ':' ∈ r :=
    fun r hr e => absurd e (hother r (by simp [hr]))
  have hpost : ∀ r ∈ post, beforeColon r ≠ D.drop 5 := fun r hr => hother r (by simp [hr])
  rw [matchLoop_last_match intSize (D.drop 5) (decimal n) pre post _ hcolon hpre hpost]
  rw [beforeColon_of_not_mem _ (not_mem_colon_of_digits _ (decimal_spec n).1)]
  rw [Atoi_decimal intSize hsize n hfit]

/-- C1, witness: the suffix `0018A45C4D1DEF81644B54AB7F969B88D65` with the record count
3 gives `(true, 3)`. -/
theorem C1_found_count_witness :
    (isPwned 64 (answer exBody) exDigest).2 = .ret (true, 3) :=
  C1_found_count 64 (answer exBody) exDigest exBody
    ["0005AD76BD555C1D6D771DE417A4B87E4B4:4".toList]
    ["011053FD0102E94D6AE2F8B83D76FAF94F6:1".toList] 3
    (Or.inr rfl) (by decide) (by decide) rfl (by decide) (by norm_num) (by decide)

/-- C2: for every digest `D` of at least 5 characters and every response body in which
no CRLF-separated record has its text before `:` equal to `D[5:]`, `isPwned` returns
`(false, 0)`. -/
theorem C2_not_found (intSize : Nat) (remote : Remote) (D body : GoString)
    (hlen : 5 ≤ D.length)
    (hbody : remote (reqUrl D) = some body)
    (hnone : ∀ r ∈ Split body crlf, beforeColon r ≠ D.drop 5) :
    (isPwned intSize remote D).2 = .ret (false, 0) := by
  rw [isPwned_out intSize remote D body hlen hbody]
  simp only
  rw [matchLoop_skip_all intSize (D.drop 5) _ _ hnone]

/-- C2, witness: a digest whose suffix is in none of the three records of `exBody`. -/
theorem C2_not_found_witness :
    (isPwned 64 (answer exBody) "5BAA6FFFFA45C4D1DEF81644B54AB7F969B88D65".toList).2 =
      .ret (false, 0) :=
  C2_not_found 64 (answer exBody) "5BAA6FFFFA45C4D1DEF81644B54AB7F969B88D65".toList exBody
    (by decide) rfl (by decide)

/-- C3: for every digest `D` of at least 5 characters, the only request `isPwned` sends
is for the URL `https://api.pwnedpasswords.com/range/` followed by the first 5
characters of `D`, whatever the remote service answers; hence every digest with the
same first 5 characters sends the identical request. -/
theorem C3_request_first_five (intSize : Nat) (remote : Remote) (D : GoString)
    (hlen : 5 ≤ D.length) :
    requests (isPwned intSize remote D).1 =
      ["https://api.pwnedpasswords.com/range/".toList ++ D.take 5] ∧
    ∀ (remote2 : Remote) (D2 : GoString), 5 ≤ D2.length → D2.take 5 = D.take 5 →
      requests (isPwned intSize remote2 D2).1 = requests (isPwned intSize remote D).1 := by
  have key : ∀ (rem : Remote) (E : GoString), 5 ≤ E.length →
      requests (isPwned intSize rem E).1 = [apiRange ++ E.take 5] := by
    intro rem E hE
    have hlt : ¬ E.length < 5 := by omega
    unfold isPwned
    rw [if_neg hlt]
    rcases hr : rem (reqUrl E) with _ | body
    · simp [requests, reqUrl]
    · simp [requests, reqUrl, requests_matchLoop]
  refine ⟨key remote D hlen, ?_⟩
  intro remote2 D2 h2 htake
  rw [key remote2 D2 h2, key remote D hlen, htake]

/-- C3, witness: `exDigest` sends the request for `.../range/5BAA6`. -/
theorem C3_request_first_five_witness :
    requests (isPwned 64 (answer exBody) exDigest).1 =
      ["https://api.pwnedpasswords.com/range/5BAA6".toList] :=
  (C3_request_first_five 64 (answer exBody) exDigest (by decide)).1

/-- C4: `isPwned` crashes on a matching record without `:`. With the 5-character digest
`5BAA6` (empty suffix) and an empty response body, and with `exDigest` and a body
whose only record is the suffix alone, the index `splitPwned[1]` is out of range and
the call panics instead of returning. -/
theorem C4_panics_without_colon :
    isPwned 64 (answer []) "5BAA6".toList =
      ([.httpGet "https://api.pwnedpasswords.com/range/5BAA6".toList],
       .panic .indexOutOfRange) ∧
    isPwned 64 (answer exSuffix) exDigest =
      ([.httpGet "https://api.pwnedpasswords.com/range/5BAA6".toList],
       .panic .indexOutOfRange) := by
  decide

/-- C5, as stated, fails: the lower-case digest `exDigestLower` has a suffix equal, up
to letter case, to the suffix of the second record of `exBody`, and `isPwned` returns
`(false, 0)`, not `(true, 3)`. -/
theorem C5_counterexample :
    (exDigestLower.drop 5).map Char.toUpper = exSuffix.map Char.toUpper ∧
    Split exBody crlf =
      ["0005AD76BD555C1D6D771DE417A4B87E4B4:4".toList, record exSuffix (decimal 3),
       "011053FD0102E94D6AE2F8B83D76FAF94F6:1".toList] ∧
    (isPwned 64 (answer exBody) exDigestLower).2 = .ret (false, 0) := by
  decide

/-- C5 (amended): suffix matching is exact, byte for byte. For every digest `D` of at
least 5 characters and every response body containing a record `S:n` (`S` without `:`,
`n` the decimal text of a natural number that fits in an `int`) in which no other
record has `D[5:]` as its text before `:`, `isPwned` returns `(true, n)` when `S` is
equal to `D[5:]` and `(false, 0)` when it is not, also when the two differ only in
letter case. -/
theorem C5_exact_match (intSize : Nat) (remote : Remote) (D body S : GoString)
    (pre post : List GoString) (n : Nat)
    (hsize : intSize = 32 ∨ intSize = 64)
    (hlen : 5 ≤ D.length)
    (hcolon : ':' ∉ S)
    (hbody : remote (reqUrl D) = some body)
    (hrec : Split body crlf = pre ++ record S (decimal n) :: post)
    (hfit : n < 2 ^ (intSize - 1))
    (hother : ∀ r ∈ pre ++ post, beforeColon r ≠ D.drop 5) :
    (isPwned intSize remote D).2 =
      if S = D.drop 5 then .ret (true, (n : Int)) else .ret (false, 0) := by
  have hpre : ∀ r ∈ pre, beforeColon r = D.drop 5 → ':' ∈ r :=
    fun r hr e => absurd e (hother r (by simp [hr]))
  have hpost : ∀ r ∈ post, beforeColon r ≠ D.drop 5 := fun r hr => hother r (by simp [hr])
  rw [isPwned_out intSize remote D body hlen hbody, hrec]
  simp only
  by_cases hS : S = D.drop 5
  · rw [if_pos hS]
    subst hS
    rw [matchLoop_last_match intSize (D.drop 5) (decimal n) pre post _ hcolon hpre hpost]
    rw [beforeColon_of_not_mem _ (not_mem_colon_of_digits _ (decimal_spec n).1)]
    rw [Atoi_decimal intSize hsize n hfit]
  · rw [if_neg hS]
    have hall : ∀ r ∈ pre ++ record S (decimal n) :: post, beforeColon r ≠ D.drop 5 := by
      intro r hr
      rcases List.mem_append.mp hr with h | h
      · exact hother r (by simp [h])
      · rcases List.mem_cons.mp h with h | h
        · rw [h, beforeColon_record S _ hcolon]
          exact hS
        · exact hother r (by simp [h])
    rw [matchLoop_skip_all intSize (D.drop 5) _ _ hall]

/-- C5, witness: the lower-case digest against the upper-case record is not found. -/
theorem C5_exact_match_witness :
    (isPwned 64 (answer exBody) exDigestLower).2 =
      if exSuffix = exDigestLower.drop 5 then .ret (true, ((3 : Nat) : Int))
      else .ret (false, 0) :=
  C5_exact_match 64 (answer exBody) exDigestLower exBody exSuffix
    ["0005AD76BD555C1D6D771DE417A4B87E4B4:4".toList]
    ["011053FD0102E94D6AE2F8B83D76FAF94F6:1".toList] 3
    (Or.inr rfl) (by decide) (by decide) rfl (by decide) (by norm_num) (by decide)

/-- C6, as stated, fails: for the digest `00000A` (suffix `A`) and the body
`A:3\r\nA:7`, `isPwned` returns `(true, 7)`, the count of the last matching record, not
`(true, 3)`. -/
theorem C6_counterexample :
    Split "A:3\r\nA:7".toList crlf =
      [record ("00000A".toList.drop 5) (decimal 3), record ("00000A".toList.drop 5) (decimal 7)] ∧
    (isPwned 64 (answer "A:3\r\nA:7".toList) "00000A".toList).2 = .ret (true, 7) := by
  decide

/-- C6 (amended): last match wins. For every digest `D` of at least 5 characters whose
suffix `S = D[5:]` contains no `:`, and every response body in which every record with
`S` before the `:` does have a `:`, the last such record being `S:n` with `n` the
decimal text of a natural number that fits in an `int`, `isPwned` returns `(true, n)`,
whatever the counts of the earlier records for `S`. -/
theorem C6_last_match_wins (intSize : Nat) (remote : Remote) (D body : GoString)
    (pre post : List GoString) (n : Nat)
    (hsize : intSize = 32 ∨ intSize = 64)
    (hlen : 5 ≤ D.length)
    (hcolon : ':' ∉ D.drop 5)
    (hbody : remote (reqUrl D) = some body)
    (hrec : Split body crlf = pre ++ record (D.drop 5) (decimal n) :: post)
    (hfit : n < 2 ^ (intSize - 1))
    (hpre : ∀ r ∈ pre, beforeColon r = D.drop 5 → ':' ∈ r)
    (hpost : ∀ r ∈ post, beforeColon r ≠ D.drop 5) :
    (isPwned intSize remote D).2 = .ret (true, (n : Int)) := by
  rw [isPwned_out intSize remote D body hlen hbody, hrec]
  simp only
  rw [matchLoop_last_match intSize (D.drop 5) (decimal n) pre post _ hcolon hpre hpost]
  rw [beforeColon_of_not_mem _ (not_mem_colon_of_digits _ (decimal_spec n).1)]
  rw [Atoi_decimal intSize hsize n hfit]

/-- C6, witness: the body `A:3\r\nA:7\r\nB:9` gives the count 7 for the suffix `A`. -/
theorem C6_last_match_wins_witness :
    (isPwned 64 (answer "A:3\r\nA:7\r\nB:9".toList) "00000A".toList).2 = .ret (true, 7) :=
  C6_last_match_wins 64 (answer "A:3\r\nA:7\r\nB:9".toList) "00000A".toList
    "A:3\r\nA:7\r\nB:9".toList ["A:3".toList] ["B:9".toList] 7
    (Or.inr rfl) (by decide) (by decide) rfl (by decide) (by norm_num) (by decide) (by decide)

/-- C7, as stated, fails for a count too large for an `int`: for the digest `00000A`
and the body `A:99999999999999999999`, `strconv.Atoi` fails with a range error and
`isPwned` returns `(true, 9223372036854775807)`, the largest 64-bit `int`, not
`(true, 0)`. -/
theorem C7_counterexample :
    (Atoi 64 "99999999999999999999".toList).2 = some .errRange ∧
    Split "A:99999999999999999999".toList crlf =
      [record ("00000A".toList.drop 5) "99999999999999999999".toList] ∧
    (isPwned 64 (answer "A:99999999999999999999".toList) "00000A".toList).2 =
      .ret (true, 9223372036854775807) := by
  decide

/-- C7 (amended): for every digest `D` of at least 5 characters whose suffix `S = D[5:]`
contains no `:`, and every response body whose only record with `S` before the `:` is
`S:C`, with a single `:` and a `C` for which `strconv.Atoi` fails, `isPwned` scans all
the records and returns found = true; the count is 0 when the failure is a syntax
error (empty text, invalid digit), and with a range error (a number too large for an
`int`) it is the largest `int`, `2^(intSize-1) - 1`, or after a leading `-` the
smallest, `-2^(intSize-1)`. -/
theorem C7_malformed_count (intSize : Nat) (remote : Remote) (D body C : GoString)
    (pre post : List GoString) (e : NumError)
    (hlen : 5 ≤ D.length)
    (hcolon : ':' ∉ D.drop 5)
    (hsingle : ':' ∉ C)
    (hbody : remote (reqUrl D) = some body)
    (hrec : Split body crlf = pre ++ record (D.drop 5) C :: post)
    (hfail : (Atoi intSize C).2 = some e)
    (hother : ∀ r ∈ pre ++ post, beforeColon r ≠ D.drop 5) :
    (isPwned intSize remote D).2 =
      .ret (true,
        match e with
        | .errSyn => 0
        | .errRange =>
          if C.head? = some '-' then -((2 ^ (intSize - 1) : Nat) : Int)
          else ((2 ^ (intSize - 1) : Nat) : Int) - 1) := by
  have hpre : ∀ r ∈ pre, beforeColon r = D.drop 5 → ':' ∈ r :=
    fun r hr h => absurd h (hother r (by simp [hr]))
  have hpost : ∀ r ∈ post, beforeColon r ≠ D.drop 5 := fun r hr => hother r (by simp [hr])
  rw [isPwned_out intSize remote D body hlen hbody, hrec]
  simp only
  rw [matchLoop_last_match intSize (D.drop 5) C pre post _ hcolon hpre hpost]
  rw [beforeColon_of_not_mem C hsingle, Atoi_error intSize C e hfail]
  cases e <;> simp [atoiErrorValue, errorValue]

/-- C7, witness: the count text `12x4` has an invalid digit; the record is found with
count 0 and the records after it are scanned. -/
theorem C7_malformed_count_witness :
    (isPwned 64 (answer "B:1\r\nA:12x4\r\nC:5".toList) "00000A".toList).2 =
      .ret (true,
        match NumError.errSyn with
        | .errSyn => 0
        | .errRange =>
          if "12x4".toList.head? = some '-' then -((2 ^ (64 - 1) : Nat) : Int)
          else ((2 ^ (64 - 1) : Nat) : Int) - 1) :=
  C7_malformed_count 64 (answer "B:1\r\nA:12x4\r\nC:5".toList) "00000A".toList
    "B:1\r\nA:12x4\r\nC:5".toList "12x4".toList ["B:1".toList] ["C:5".toList] .errSyn
    (by decide) (by decide) (by decide) rfl (by decide) (by decide) (by decide)

/-- C8, as stated, fails: for the digest `00000A` (suffix `A`) the bodies `B:1\r\nA` and
`B:zz\r\nA` differ only in the COUNT text of the record for `B`, and on both of them
`isPwned` panics at `splitPwned[1]` on the record `A`, so that no `(found, count)`
pair is returned. -/
theorem C8_counterexample :
    Split "B:1\r\nA".toList crlf = [record "B".toList "1".toList, "A".toList] ∧
    Split "B:zz\r\nA".toList crlf = [record "B".toList "zz".toList, "A".toList] ∧
    "B".toList ≠ "00000A".toList.drop 5 ∧
    (isPwned 64 (answer "B:1\r\nA".toList) "00000A".toList).2 = .panic .indexOutOfRange ∧
    (isPwned 64 (answer "B:zz\r\nA".toList) "00000A".toList).2 = .panic .indexOutOfRange := by
  decide

/-- C8 (amended): for every digest `D` of at least 5 characters and every two response
bodies whose records differ only in the COUNT text of one record `X:c`, `X` not the
queried suffix, and in which every other record with `D[5:]` as its text before `:`
contains a `:`, `isPwned` returns on both bodies, and returns the same
`(found, count)` pair. -/
theorem C8_other_count_irrelevant (intSize : Nat) (remote1 remote2 : Remote)
    (D body1 body2 X c1 c2 : GoString) (pre post : List GoString)
    (hlen : 5 ≤ D.length)
    (hX : ':' ∉ X)
    (hne : X ≠ D.drop 5)
    (hbody1 : remote1 (reqUrl D) = some body1)
    (hbody2 : remote2 (reqUrl D) = some body2)
    (hrec1 : Split body1 crlf = pre ++ record X c1 :: post)
    (hrec2 : Split body2 crlf = pre ++ record X c2 :: post)
    (hwf : ∀ r ∈ pre ++ post, beforeColon r = D.drop 5 → ':' ∈ r) :
    ∃ st, (isPwned intSize remote1 D).2 = .ret st ∧ (isPwned intSize remote2 D).2 = .ret st := by
  have hskip : ∀ (c : GoString) (st : Bool × Int),
      matchLoop intSize (D.drop 5) (record X c :: post) st =
        matchLoop intSize (D.drop 5) post st := by
    intro c st
    apply matchLoop_cons_skip
    rw [beforeColon_record X c hX]
    exact hne
  have heq : (isPwned intSize remote1 D).2 = (isPwned intSize remote2 D).2 := by
    rw [isPwned_out intSize remote1 D body1 hlen hbody1,
      isPwned_out intSize remote2 D body2 hlen hbody2, hrec1, hrec2]
    simp only
    rw [matchLoop_append, matchLoop_append]
    simp only [hskip]
  have hall : ∀ r ∈ pre ++ record X c1 :: post, beforeColon r = D.drop 5 → ':' ∈ r := by
    intro r hr
    rcases List.mem_append.mp hr with h | h
    · exact hwf r (by simp [h])
    · rcases List.mem_cons.mp h with h | h
      · intro hb
        rw [h, beforeColon_record X c1 hX] at hb
        exact absurd hb hne
      · exact hwf r (by simp [h])
  obtain ⟨st, hst⟩ := matchLoop_returns intSize (D.drop 5) _ (false, 0) hall
  refine ⟨st, ?_, ?_⟩
  · rw [isPwned_out intSize remote1 D body1 hlen hbody1, hrec1]
    exact hst
  · rw [← heq, isPwned_out intSize remote1 D body1 hlen hbody1, hrec1]
    exact hst

/-- C8, witness: the bodies `B:1\r\nA:5` and `B:zz\r\nA:5` both return a pair, the same
one, for the suffix `A`. -/
theorem C8_other_count_irrelevant_witness :
    ∃ st, (isPwned 64 (answer "B:1\r\nA:5".toList) "00000A".toList).2 = .ret st ∧
      (isPwned 64 (answer "B:zz\r\nA:5".toList) "00000A".toList).2 = .ret st :=
  C8_other_count_irrelevant 64 (answer "B:1\r\nA:5".toList)
    (answer "B:zz\r\nA:5".toList) "00000A".toList "B:1\r\nA:5".toList "B:zz\r\nA:5".toList
    "B".toList "1".toList "zz".toList [] ["A:5".toList]
    (by decide) (by decide) (by decide) rfl rfl (by decide) (by decide) (by decide)

/-! ## Batch mode -/

/-- When `isPwned` returns, its argument has at least 5 characters. -/
theorem length_of_isPwned_ret (intSize : Nat) (remote : Remote) (passHash : GoString)
    (st : Bool × Int) (h : (isPwned intSize remote passHash).2 = .ret st) :
    5 ≤ passHash.length := by
  by_contra hlt
  have hlt2 : passHash.length < 5 := by omega
  simp [isPwned, hlt2] at h

/-- One turn of the loop of `checkFromFile` on a line for which `isPwned` returns. -/
theorem checkLines_cons_ret (intSize : Nat) (remote : Remote) (L : GoString)
    (rest : List GoString) (st : Bool × Int)
    (h : (isPwned intSize remote L).2 = .ret st) :
    checkLines intSize remote (L :: rest) =
      ((isPwned intSize remote L).1 ++
        (if st.1 then [Event.printLeaked (L.take 5) st.2] else []) ++
        (checkLines intSize remote rest).1,
       (checkLines intSize remote rest).2) := by
  have hlen := length_of_isPwned_ret intSize remote L st h
  have hlt : ¬ L.length < 5 := by omega
  rcases hp : isPwned intSize remote L with ⟨ev, o⟩
  rw [hp] at h
  simp only at h
  subst h
  obtain ⟨found, count⟩ := st
  rw [checkLines]
  simp only [hp]
  cases found <;> simp [hlt]

/-- One turn of the loop of `checkFromFile` on a line on which `isPwned` exits: the
run ends there. -/
theorem checkLines_cons_exit (intSize : Nat) (remote : Remote) (L : GoString)
    (rest : List GoString) (ev : List Event) (code : Nat)
    (h : isPwned intSize remote L = (ev, .exit code)) :
    checkLines intSize remote (L :: rest) = (ev, .exit code) := by
  rw [checkLines]
  simp only [h]

/-- The loop of `checkFromFile` passes lines for which `isPwned` returns. -/
theorem checkLines_append_ret (intSize : Nat) (remote : Remote) (pre rest : List GoString)
    (hpre : ∀ l ∈ pre, ∃ st, (isPwned intSize remote l).2 = .ret st) :
    checkLines intSize remote (pre ++ rest) =
      ((checkLines intSize remote pre).1 ++ (checkLines intSize remote rest).1,
       (checkLines intSize remote rest).2) := by
  induction pre with
  | nil => simp [checkLines]
  | cons l pre ih =>
    obtain ⟨st, hst⟩ := hpre l (by simp)
    have ih2 := ih fun x hx => hpre x (by simp [hx])
    rw [List.cons_append, checkLines_cons_ret intSize remote l _ st hst,
      checkLines_cons_ret intSize remote l pre st hst, ih2]
    simp

/-- C9, as stated, fails. In the batch of the lines `00000AAAA` and `exDigest`, the
query of the first line returns a network error and the second digest is found with
count 3: `checkFromFile` exits with status 1 at the first line and prints no report.
In the batch of the lines `5BA` and `exDigest`, the first line is shorter than 5
characters: `checkFromFile` panics at once. -/
theorem C9_counterexample :
    (isPwned 64 (failingFor "00000AAAA".toList exBody) exDigest).2 = .ret (true, 3) ∧
    checkFromFile 64 (failingFor "00000AAAA".toList exBody)
        (some ["00000AAAA".toList, exDigest]) =
      ([.httpGet "https://api.pwnedpasswords.com/range/00000".toList, .logFatalln], .exit 1) ∧
    (isPwned 64 (answer exBody) exDigest).2 = .ret (true, 3) ∧
    checkFromFile 64 (answer exBody) (some ["5BA".toList, exDigest]) =
      ([], .panic .sliceBounds) := by
  decide

/-- C9 (amended): batch mode stops at the first failing line. `checkFromFile` handles
the lines in order; after lines on each of which `isPwned` returned, a line whose
digest is found has its leaked report printed, and a line of at least 5 characters
whose query returns a network error ends the run there with exit status 1
(`log.Fatalln`): the events are those of the earlier lines, the request and the fatal
log line, and no later line is processed. -/
theorem C9_batch_stops_at_failure (intSize : Nat) (remote : Remote) (pre post : List GoString)
    (L : GoString)
    (hpre : ∀ l ∈ pre, ∃ st, (isPwned intSize remote l).2 = .ret st) :
    (∀ count, (isPwned intSize remote L).2 = .ret (true, count) →
      Event.printLeaked (L.take 5) count ∈
        (checkFromFile intSize remote (some (pre ++ L :: post))).1) ∧
    (5 ≤ L.length → remote (reqUrl L) = none →
      checkFromFile intSize remote (some (pre ++ L :: post)) =
        ((checkLines intSize remote pre).1 ++ [.httpGet (reqUrl L), .logFatalln], .exit 1)) := by
  constructor
  · intro count hfound
    simp only [checkFromFile]
    rw [checkLines_append_ret intSize remote pre _ hpre,
      checkLines_cons_ret intSize remote L post (true, count) hfound]
    simp
  · intro hlen hnet
    have hlt : ¬ L.length < 5 := by omega
    have hL : isPwned intSize remote L = ([.httpGet (reqUrl L), .logFatalln], .exit 1) := by
      simp [isPwned, hlt, hnet]
    simp only [checkFromFile]
    rw [checkLines_append_ret intSize remote pre _ hpre,
      checkLines_cons_exit intSize remote L post _ 1 hL]

/-- C9, witness: after a line that is not found, the line `exDigest` is reported. -/
theorem C9_batch_stops_at_failure_witness :
    Event.printLeaked "5BAA6".toList 3 ∈
      (checkFromFile 64 (answer exBody)
        (some (["5BAA6FFFFA45C4D1DEF81644B54AB7F969B88D65".toList] ++ exDigest :: []))).1 :=
  (C9_batch_stops_at_failure 64 (answer exBody)
    ["5BAA6FFFFA45C4D1DEF81644B54AB7F969B88D65".toList] [] exDigest
    (fun l hl => ⟨(false, 0), by
      rw [List.mem_singleton.mp hl]
      decide⟩)).1 3 (by decide)

/-! ## The digest -/

theorem upperHex_getD (i : Nat) : isUpperHex (upperHex.getD i '0') := by
  by_cases h : i < 16
  · interval_cases i <;> (unfold isUpperHex; decide)
  · have : upperHex.getD i '0' = '0' := by
      apply List.getD_eq_default
      simp [upperHex]
      omega
    rw [this]
    unfold isUpperHex
    decide

theorem sprintfX_length (bytes : List Nat) : (sprintfX bytes).length = 2 * bytes.length := by
  induction bytes with
  | nil => simp [sprintfX]
  | cons b bs ih =>
    simp only [sprintfX, List.flatMap_cons, List.length_append, List.length_cons] at ih ⊢
    rw [ih]
    simp [hexByte]
    omega

theorem sprintfX_upperHex (bytes : List Nat) : ∀ c ∈ sprintfX bytes, isUpperHex c := by
  intro c hc
  simp only [sprintfX, List.mem_flatMap] at hc
  obtain ⟨b, _, hb⟩ := hc
  simp only [hexByte, List.mem_cons, List.mem_singleton] at hb
  rcases hb with h | h | h
  · rw [h]
    exact upperHex_getD _
  · rw [h]
    exact upperHex_getD _
  · simp at h

theorem sha1Sum_length (data : List Nat) : (sha1Sum data).length = 20 := by
  simp [sha1Sum, be32]

/-- C10, as stated, fails in its witness: the digest the program computes for the
password `password` is not `5BAA61E4C9B93F3F0682250B6CF8331B7EE68FD7`. -/
theorem C10_counterexample :
    passHashOf (bytesOf "password") ≠ "5BAA61E4C9B93F3F0682250B6CF8331B7EE68FD7".toList := by
  decide

/-- C10 (amended): for every password byte string the digest the program computes,
the `%X` rendering of the 20-byte SHA-1 sum, is a string of exactly 40 characters,
each one of `0-9` or `A-F`, and equal bytes give equal digests; the password
`password` gives `5BAA61E4C9B93F3F0682250B6CF8331B7EE68FD8`. -/
theorem C10_digest_format :
    (∀ password : List Nat,
      (passHashOf password).length = 40 ∧ ∀ c ∈ passHashOf password, isUpperHex c) ∧
    (∀ p q : List Nat, p = q → passHashOf p = passHashOf q) ∧
    passHashOf (bytesOf "password") = "5BAA61E4C9B93F3F0682250B6CF8331B7EE68FD8".toList := by
  refine ⟨fun password => ⟨?_, sprintfX_upperHex _⟩, fun p q h => by rw [h], by decide⟩
  rw [passHashOf, sprintfX_length, sha1Sum_length]

end Pwnedcheck
